import Mathlib

set_option maxRecDepth 100000

/-!
Verification of the git index v2/v3 → v5 converter (git-convert-index.py).

The program is modelled as a shallow embedding: byte strings are `List Nat`
(each element a byte value), the input reader is a record holding the file
contents, a cursor, and the bytes absorbed so far into the running SHA-1
digest, and the output file is a buffer with an explicit write cursor (the
Python code writes and seeks on a real file handle).

Python-2 specifics that the model reflects:
  * `struct` fields are big-endian; `pack` of an `s` field truncates or
    NUL-pads to the declared width; unpacking a too-short string raises
    `struct.error`.
  * the `h`-unpacked `flags` field is a signed 16-bit integer in Python, but
    every operation the program performs on it (`& 0x8000`, `& 0x3000`,
    `* 2`, stage extraction) depends only on the 16-bit pattern, so the
    model carries the unsigned 16-bit pattern.
  * `file.read(n)` simply returns fewer bytes at end of file, with no error.
  * `read_name`'s byte-by-byte loop never terminates when the delimiter is
    missing, because reading at EOF yields the empty string; the model has a
    fuel-indexed transcription of the loop and a terminating denotation that
    returns `none` exactly in the diverging case.
  * SHA-1 itself is abstracted as a parameter `sha1Fn` mapping the absorbed
    byte sequence to a 20-byte digest; the checksum comparison only needs
    that the digest is a function of the absorbed bytes.
-/

/-- Big-endian value of a byte list (used to model `struct.unpack` of `!I`). -/
def beToNat (l : List Nat) : Nat := l.foldl (fun acc b => acc * 256 + b) 0

/-- Big-endian 4-byte encoding, the model of `struct.pack("!I", n)`. -/
def packU32 (n : Nat) : List Nat :=
  [n / 2 ^ 24 % 256, n / 2 ^ 16 % 256, n / 2 ^ 8 % 256, n % 256]

/-- Big-endian 2-byte encoding, the model of `struct.pack("!H", n)`. -/
def packU16 (n : Nat) : List Nat := [n / 256 % 256, n % 256]

/-- Model of a `4s` pack: truncate or NUL-pad to 4 bytes. -/
def pack4s (s : List Nat) : List Nat := s.take 4 ++ List.replicate (4 - s.length) 0

/-- Model of a `20s` pack: truncate or NUL-pad to 20 bytes. -/
def pack20s (s : List Nat) : List Nat := s.take 20 ++ List.replicate (20 - s.length) 0

/-- The 4-byte big-endian field starting at offset `off` of a buffer. -/
def u32At (l : List Nat) (off : Nat) : Nat := beToNat ((l.drop off).take 4)

/-- The reflected CRC-32 polynomial used by `binascii.crc32`. -/
def crcPoly : Nat := 0xEDB88320

/-- One bit step of the reflected CRC-32. -/
def crcBitStep (c : Nat) : Nat := if c % 2 = 1 then c / 2 ^^^ crcPoly else c / 2

/-- Iterate the bit step. -/
def crcBits : Nat → Nat → Nat
  | 0, c => c
  | n + 1, c => crcBits n (crcBitStep c)

/-- One byte step of the reflected CRC-32. -/
def crcByteStep (c b : Nat) : Nat := crcBits 8 (c ^^^ b % 256)

/-- Model of `binascii.crc32(data, pcrc) & 0xffffffff` (`calculate_crc` in the
source): complement the running value, fold the bytes, complement again. -/
def calculate_crc (data : List Nat) (pcrc : Nat) : Nat :=
  data.foldl crcByteStep (pcrc ^^^ 0xFFFFFFFF) ^^^ 0xFFFFFFFF

/-- Byte-wise lexicographic order on byte strings, as Python compares `str`. -/
def lexLe : List Nat → List Nat → Bool
  | [], _ => true
  | _ :: _, [] => false
  | a :: as, b :: bs => if a < b then true else if b < a then false else lexLe as bs

/-- Insert into a sorted list, before the first element that `x` is ≤ to;
this makes `sortBy` a stable ascending sort, as Python's `sorted`. -/
def insertLe (le : α → α → Bool) (x : α) : List α → List α
  | [] => [x]
  | y :: ys => if le x y then x :: y :: ys else y :: insertLe le x ys

/-- Stable insertion sort, the model of Python's `sorted`. -/
def sortLe (le : α → α → Bool) (l : List α) : List α := l.foldr (insertLe le) []

/-- Model of `set.add`: keep the element only if not already present. -/
def insertSet [DecidableEq α] (x : α) (s : List α) : List α :=
  if x ∈ s then s else x :: s

/-- ASCII decimal digit test. -/
def isDigit (b : Nat) : Bool := 48 ≤ b && b ≤ 57

/-- Value of a string of decimal digits. -/
def digitsVal (l : List Nat) : Nat := l.foldl (fun acc b => acc * 10 + (b - 48)) 0

/-- Model of Python `int(s)`: optional minus sign, then nonempty decimal
digits; anything else raises `ValueError` (modelled as `none`). -/
def parseDec (s : List Nat) : Option Int :=
  match s with
  | [] => none
  | 45 :: rest =>
      if rest ≠ [] ∧ rest.all isDigit then some (-(digitsVal rest : Int)) else none
  | _ => if s.all isDigit then some (digitsVal s : Int) else none

/-- ASCII octal digit test. -/
def isOctDigit (b : Nat) : Bool := 48 ≤ b && b ≤ 55

/-- Value of a string of octal digits. -/
def octVal (l : List Nat) : Nat := l.foldl (fun acc b => acc * 8 + (b - 48)) 0

/-- Model of Python `int(s, 8)`. -/
def parseOct (s : List Nat) : Option Int :=
  match s with
  | [] => none
  | 45 :: rest =>
      if rest ≠ [] ∧ rest.all isOctDigit then some (-(octVal rest : Int)) else none
  | _ => if s.all isOctDigit then some (octVal s : Int) else none

/-- Lower-case hex character of a value below 16. -/
def hexChar (n : Nat) : Nat := if n < 10 then 48 + n else 87 + n

/-- Model of `binascii.hexlify`: two lower-case hex characters per byte. -/
def hexlify (bs : List Nat) : List Nat :=
  bs.foldr (fun b acc => hexChar (b / 16 % 16) :: hexChar (b % 16) :: acc) []

/-- Drop trailing occurrences of a byte (Python `str.rstrip` with one char). -/
def dropTrailing (c : Nat) (l : List Nat) : List Nat :=
  (l.reverse.dropWhile (fun b => b = c)).reverse

/-- Drop leading occurrences of a byte. -/
def dropLeading (c : Nat) (l : List Nat) : List Nat := l.dropWhile (fun b => b = c)

/-- Model of Python `str.strip("/")`: remove leading and trailing slashes. -/
def stripSlashes (l : List Nat) : List Nat := dropTrailing 47 (dropLeading 47 l)

/-- Index just past the last `/` in a path, 0 when there is none
(the `i = p.rfind(sep) + 1` of `posixpath`). -/
def lastSlashEnd (p : List Nat) : Nat :=
  match p with
  | [] => 0
  | b :: rest =>
      let r := lastSlashEnd rest
      if r = 0 then (if b = 47 then 1 else 0) else r + 1

/-- Model of `os.path.dirname`: bytes before the last `/`, with trailing
slashes stripped unless the head consists only of slashes. -/
def dirnameOf (p : List Nat) : List Nat :=
  let head := p.take (lastSlashEnd p)
  if head ≠ [] ∧ head.any (fun b => b ≠ 47) then dropTrailing 47 head else head

/-- Model of `os.path.basename`: bytes after the last `/`. -/
def basenameOf (p : List Nat) : List Nat := p.drop (lastSlashEnd p)

/-- The input byte source of the converter: file contents, read cursor, and
the bytes absorbed so far into the running SHA-1 digest. -/
structure Reader where
  data : List Nat
  pos : Nat
  hashed : List Nat
deriving DecidableEq

/-- Model of `Reader.read`: return up to `n` bytes (fewer at end of file,
with no error), advancing the cursor and absorbing the bytes read into the
running digest. -/
def Reader.read (r : Reader) (n : Nat) : List Nat × Reader :=
  let taken := (r.data.drop r.pos).take n
  (taken, ⟨r.data, r.pos + taken.length, r.hashed ++ taken⟩)

/-- Model of `Reader.read_without_updating_sha1`: advance the cursor but do
not absorb the bytes into the digest. -/
def Reader.readRaw (r : Reader) (n : Nat) : List Nat × Reader :=
  let taken := (r.data.drop r.pos).take n
  (taken, ⟨r.data, r.pos + taken.length, r.hashed⟩)

/-- Model of `Reader.updateSha1`: absorb bytes without reading. -/
def Reader.updateSha1 (r : Reader) (d : List Nat) : Reader :=
  ⟨r.data, r.pos, r.hashed ++ d⟩

/-- The bytes not yet consumed by the reader. -/
def Reader.remaining (r : Reader) : List Nat := r.data.drop r.pos

/-- The output file: a byte buffer plus a write cursor, supporting the
`write`, `seek` and `tell` operations the writer uses. -/
structure FileW where
  buf : List Nat
  pos : Nat
deriving DecidableEq

/-- Model of `file.write`: overwrite at the cursor, extending the buffer. -/
def FileW.write (f : FileW) (d : List Nat) : FileW :=
  ⟨f.buf.take f.pos ++ d ++ f.buf.drop (f.pos + d.length), f.pos + d.length⟩

/-- Model of `file.seek`. -/
def FileW.seek (f : FileW) (p : Nat) : FileW := ⟨f.buf, p⟩

/-- Model of `file.tell`. -/
def FileW.tell (f : FileW) : Nat := f.pos

/-- A freshly opened output file. -/
def FileW.empty : FileW := ⟨[], 0⟩

/-- The ways the Python program aborts: `struct.error` on a short or
out-of-range pack/unpack, `ValueError` from `int()`, `KeyError` from a
missing dict key, the `SHAError` raised on a checksum mismatch, and
divergence of the `read_name` loop at end of input. -/
inductive PError where
  | structError
  | valueError
  | keyError
  | shaMismatch
  | hangs
deriving DecidableEq

/-- The v2/v3 index header. -/
structure Header where
  signature : List Nat
  version : Nat
  nrofentries : Nat
deriving DecidableEq

/-- A parsed index entry; `flags` is the 16-bit pattern of the `h` field and
`pathname`/`filename` are the `os.path.dirname`/`basename` split. -/
structure IndexEntry where
  ctimesec : Nat
  ctimensec : Nat
  mtimesec : Nat
  mtimensec : Nat
  dev : Nat
  ino : Nat
  mode : Nat
  uid : Nat
  gid : Nat
  filesize : Nat
  sha1 : List Nat
  flags : Nat
  pathname : List Nat
  filename : List Nat
  xtflags : Option Nat
deriving DecidableEq

/-- A cache-tree record; `entry_count` and `subtrees` are kept as the ASCII
strings read from the file, and `sha1` is `some` of the hexlified object
name when present (`none` models the `"invalid"` sentinel string). -/
structure TreeExtensionData where
  path : List Nat
  entry_count : List Nat
  subtrees : List Nat
  sha1 : Option (List Nat)
deriving DecidableEq

/-- A resolve-undo record. -/
structure ReucExtensionData where
  path : List Nat
  entry_mode0 : Int
  entry_mode1 : Int
  entry_mode2 : Int
  obj_names0 : List Nat
  obj_names1 : List Nat
  obj_names2 : List Nat
deriving DecidableEq

/-- The per-directory aggregate record of the v5 writer. `nsubtrees` and
`nentries` are `Int` because they come from Python's `int()` applied to the
cache-tree counts, which can be `-1`. -/
structure DirEntry where
  nfiles : Nat
  flags : Nat
  cr : Nat
  ncr : Nat
  nsubtrees : Int
  nentries : Int
  objname : List Nat
deriving DecidableEq

/-- The all-zero `DirEntry()` constructed by the Python defaults. -/
def DirEntry.init : DirEntry := ⟨0, 0, 0, 0, 0, 0, List.replicate 20 0⟩

/-- The body of the `read_name` loop: scan for the delimiter, returning the
collected string and the count of 1-byte reads (delimiter included), or
`none` when the delimiter does not occur, in which case the Python loop
never terminates (reading at EOF returns the empty string forever). -/
def scanName (delim : Nat) : List Nat → Option (List Nat × Nat)
  | [] => none
  | b :: rest =>
      if b = delim then some ([], 1)
      else (scanName delim rest).map (fun p => (b :: p.1, p.2 + 1))

/-- Terminating denotation of `read_name`: the string before the delimiter,
the number of bytes consumed, and the advanced reader; `none` models the
diverging run. -/
def read_name (r : Reader) (delim : Nat) : Option (List Nat × Nat × Reader) :=
  (scanName delim r.remaining).map (fun p => (p.1, p.2, (r.read p.2).2))

/-- Literal fuel-indexed transcription of the `read_name` loop: one
`r.read(1)` per iteration, stop when the byte read equals the delimiter. -/
def readNameLoop (delim : Nat) : Nat → Reader → List Nat → Nat →
    Option (List Nat × Nat × Reader)
  | 0, _, _, _ => none
  | fuel + 1, r, acc, cnt =>
      let (byte, r') := r.read 1
      if byte = [delim] then some (acc, cnt + 1, r')
      else readNameLoop delim fuel r' (acc ++ byte) (cnt + 1)

/-- Model of `read_header`: unpack `!4sII` from 12 bytes; a short read makes
`struct.unpack` raise. No signature or version validation is performed. -/
def read_header (r : Reader) : Except PError (Header × Reader) :=
  let (chunk, r') := r.read 12
  if chunk.length = 12 then
    .ok (⟨chunk.take 4, u32At chunk 4, u32At chunk 8⟩, r')
  else .error .structError

/-- Stage bits of an entry, `(flags & 0x3000) / 0x1000` in the source. -/
def stageOf (flags : Nat) : Nat := (flags &&& 0x3000) / 0x1000

/-- Model of `read_entry`: the 62-byte v2 stat record (ten `!I` fields, a
20-byte object name, a 16-bit flags field), the v3 extended flags when
`version == 3`, the NUL-terminated path split by `dirname`/`basename`, and
the NUL padding to the 8-byte boundary, which is read and discarded. -/
def read_entry (r : Reader) (header : Header) : Except PError (IndexEntry × Reader) :=
  let (chunk, r1) := r.read 62
  if chunk.length = 62 then
    let xt := if header.version = 3 then
        some ((r1.read 2).1, (r1.read 2).2) else none
    match xt with
    | some (xchunk, _) =>
        if xchunk.length = 2 then
          readEntryRest chunk (some (beToNat xchunk)) ((r1.read 2).2) header
        else .error .structError
    | none => readEntryRest chunk none r1 header
  else .error .structError
where
  /-- The part of `read_entry` after the fixed-width fields. -/
  readEntryRest (chunk : List Nat) (xtflags : Option Nat)
      (r1 : Reader) (header : Header) : Except PError (IndexEntry × Reader) :=
    match read_name r1 0 with
    | none => .error .hangs
    | some (name, readbytes, r2) =>
        let j := if header.version = 2 then 8 - (readbytes + 5) % 8
                 else 8 - (readbytes + 1) % 8
        let r3 := (r2.read (j - 1)).2
        let entry : IndexEntry :=
          { ctimesec := u32At chunk 0
            ctimensec := u32At chunk 4
            mtimesec := u32At chunk 8
            mtimensec := u32At chunk 12
            dev := u32At chunk 16
            ino := u32At chunk 20
            mode := u32At chunk 24
            uid := u32At chunk 28
            gid := u32At chunk 32
            filesize := u32At chunk 36
            sha1 := (chunk.drop 40).take 20
            flags := beToNat ((chunk.drop 60).take 2)
            pathname := dirnameOf name
            filename := basenameOf name
            xtflags := xtflags }
        .ok (entry, r3)

/-- Read `n` consecutive entries, in order. -/
def readEntriesLoop (header : Header) : Nat → Reader → Except PError (List IndexEntry × Reader)
  | 0, r => .ok ([], r)
  | n + 1, r => do
      let (e, r1) ← read_entry r header
      let (es, r2) ← readEntriesLoop header n r1
      .ok (e :: es, r2)

/-- The stage classification performed inside the `read_index_entries` loop:
stage-0 entries go to the active list, stage-1 entries go to both the active
list and the conflicted map, stages 2 and 3 go only to the conflicted map
(an association list keyed by the entry's directory); `paths` collects the
set of directory names and `files` every file name. -/
def classifyEntries : List IndexEntry →
    List IndexEntry × List (List Nat × IndexEntry) × List (List Nat) × List (List Nat)
  | [] => ([], [], [], [])
  | e :: rest =>
      (if stageOf e.flags = 0 ∨ stageOf e.flags = 1
         then e :: (classifyEntries rest).1 else (classifyEntries rest).1,
       if stageOf e.flags ≠ 0
         then (e.pathname, e) :: (classifyEntries rest).2.1 else (classifyEntries rest).2.1,
       insertSet e.pathname (classifyEntries rest).2.2.1,
       e.filename :: (classifyEntries rest).2.2.2)

/-- Model of `read_index_entries`: read the declared number of entries and
classify them. -/
def read_index_entries (r : Reader) (header : Header) :
    Except PError ((List IndexEntry × List (List Nat × IndexEntry) ×
      List (List Nat) × List (List Nat)) × Reader) := do
  let (es, r') ← readEntriesLoop header header.nrofentries r
  .ok (classifyEntries es, r')

/-- Replace the value at a key of an association list, or append the binding
at the end (Python dict assignment). -/
def dictInsert [DecidableEq κ] (k : κ) (v : α) : List (κ × α) → List (κ × α)
  | [] => [(k, v)]
  | (k', v') :: rest => if k' = k then (k, v) :: rest else (k', v') :: dictInsert k v rest

/-- Pop cache-tree stack levels whose remaining-subtree counter is zero
(the `while listsize >= 0 and subtreenr[listsize] == 0` loop; the stack top
is the list head). -/
def popZeros : List (Int × List Nat) → List (Int × List Nat)
  | [] => []
  | (c, p) :: rest => if c = 0 then popZeros rest else (c, p) :: rest

/-- Decrement the remaining-subtree counter of the stack top. -/
def decTop : List (Int × List Nat) → List (Int × List Nat)
  | [] => []
  | (c, p) :: rest => (c - 1, p) :: rest

/-- The `"/"`-joined concatenation of the non-empty stack components,
bottom of the stack first (the `for p in subtree` loop). -/
def joinStack (stack : List (Int × List Nat)) : List Nat :=
  (stack.reverse).foldl (fun acc cp => if cp.2 = [] then acc else acc ++ cp.2 ++ [47]) []

/-- One record plus loop control of the cache-tree reader: read the relative
path, pop exhausted stack levels, build the full path (prefixing and
decrementing only when the stack has more than the root level), read the
ASCII entry and subtree counts, push the new level, and read the 20-byte
tree object name (stored hexlified) unless the entry count is `"-1"`. The
loop runs while fewer than `size` bytes have been consumed; each iteration
consumes at least one byte, so the `size + 1` fuel supplied by the caller
can never run out. -/
def readTreeLoop (size : Nat) : Nat → Reader → Nat → List (Int × List Nat) →
    List (List Nat × TreeExtensionData) →
    Except PError (List (List Nat × TreeExtensionData) × Reader)
  | 0, _, _, _, _ => .error .hangs
  | fuel + 1, r, readn, stack, acc =>
    if size ≤ readn then .ok (acc, r) else
    match read_name r 0 with
    | none => .error .hangs
    | some (path, c1, r1) =>
        let readn := readn + c1
        let stack := popZeros stack
        let pre := if stack.length > 1 then joinStack stack else []
        let stack := if stack.length > 1 then decTop stack else stack
        let fpath := pre ++ path ++ [47]
        match read_name r1 32 with
        | none => .error .hangs
        | some (entry_count, c2, r2) =>
            let readn := readn + c2
            match read_name r2 10 with
            | none => .error .hangs
            | some (subtrees, c3, r3) =>
                let readn := readn + c3
                match parseDec subtrees with
                | none => .error .valueError
                | some nsub =>
                    let stack := (nsub, path) :: stack
                    if entry_count ≠ [45, 49] then
                      let (shaBytes, r4) := r3.read 20
                      let readn := readn + 20
                      readTreeLoop size fuel r4 readn stack
                        (dictInsert fpath
                          ⟨fpath, entry_count, subtrees, some (hexlify shaBytes)⟩ acc)
                    else
                      readTreeLoop size fuel r3 readn stack
                        (dictInsert fpath
                          ⟨fpath, entry_count, subtrees, none⟩ acc)

/-- Model of `read_tree_extensiondata`: a 4-byte length, then records until
that many bytes have been consumed. -/
def read_tree_extensiondata (r : Reader) :
    Except PError (List (List Nat × TreeExtensionData) × Reader) :=
  let (sizeBytes, r1) := r.read 4
  if sizeBytes.length = 4 then
    let size := beToNat sizeBytes
    readTreeLoop size (size + 1) r1 0 [(0, [])] []
  else .error .structError

/-- Model of `read_reuc_extension_entry`: a NUL-terminated path, three
NUL-terminated octal mode strings, then a 20-byte object name for each
nonzero mode. -/
def read_reuc_extension_entry (r : Reader) :
    Except PError (ReucExtensionData × Nat × Reader) :=
  match read_name r 0 with
  | none => .error .hangs
  | some (path, c0, r0) =>
      match read_name r0 0 with
      | none => .error .hangs
      | some (m0, c1, r1) =>
          match read_name r1 0 with
          | none => .error .hangs
          | some (m1, c2, r2) =>
              match read_name r2 0 with
              | none => .error .hangs
              | some (m2, c3, r3) =>
                  match parseOct m0, parseOct m1, parseOct m2 with
                  | some mode0, some mode1, some mode2 =>
                      let readA := c0 + c1 + c2 + c3
                      let (o0, rA) := if mode0 ≠ 0 then r3.read 20 else ([], r3)
                      let readB := if mode0 ≠ 0 then readA + 20 else readA
                      let (o1, rB) := if mode1 ≠ 0 then rA.read 20 else ([], rA)
                      let readC := if mode1 ≠ 0 then readB + 20 else readB
                      let (o2, rC) := if mode2 ≠ 0 then rB.read 20 else ([], rB)
                      let readD := if mode2 ≠ 0 then readC + 20 else readC
                      .ok (⟨path, mode0, mode1, mode2, o0, o1, o2⟩, readD, rC)
                  | _, _, _ => .error .valueError

/-- The loop of `read_reuc_extensiondata`; each iteration consumes at least
one byte, so the `size + 1` fuel supplied by the caller can never run out.
Each entry is appended to the list at the key `path[:-1]`. -/
def readReucLoop (size : Nat) : Nat → Reader → Nat →
    List (List Nat × ReucExtensionData) →
    Except PError (List (List Nat × ReucExtensionData) × Reader)
  | 0, _, _, _ => .error .hangs
  | fuel + 1, r, readn, acc =>
    if size ≤ readn then .ok (acc, r) else
    match read_reuc_extension_entry r with
    | .error e => .error e
    | .ok (entry, readbytes, r1) =>
        readReucLoop size fuel r1 (readn + readbytes)
          (acc ++ [(entry.path.dropLast, entry)])

/-- Model of `read_reuc_extensiondata`. -/
def read_reuc_extensiondata (r : Reader) :
    Except PError (List (List Nat × ReucExtensionData) × Reader) :=
  let (sizeBytes, r1) := r.read 4
  if sizeBytes.length = 4 then
    let size := beToNat sizeBytes
    readReucLoop size (size + 1) r1 0 []
  else .error .structError

/-- The ASCII bytes of `"TREE"`. -/
def treeTag : List Nat := [84, 82, 69, 69]

/-- The ASCII bytes of `"REUC"`. -/
def reucTag : List Nat := [82, 69, 85, 67]

/-- Everything `read_index` returns. -/
structure ParseResult where
  header : Header
  indexentries : List IndexEntry
  conflictedentries : List (List Nat × IndexEntry)
  paths : List (List Nat)
  files : List (List Nat)
  treeextensiondata : List (List Nat × TreeExtensionData)
  reucextensiondata : List (List Nat × ReucExtensionData)
deriving DecidableEq

/-- Model of `read_index`, parameterised by the SHA-1 digest function: read
the header and entries, peek 4 bytes without digesting to detect a `TREE` or
`REUC` extension (absorbing the tag only when recognised), then compare the
running digest with the stored trailer — whose first 4 bytes are the last
unrecognised peek when one occurred — and fail with `SHAError` when they
differ. -/
def read_index (sha1Fn : List Nat → List Nat) (data : List Nat) :
    Except PError ParseResult := do
  let r : Reader := ⟨data, 0, []⟩
  let (header, r) ← read_header r
  let ((indexentries, conflictedentries, paths, files), r) ← read_index_entries r header
  let (ext0, r) := r.readRaw 4
  let (tree, reuc, ext, r) ←
    if ext0 = treeTag ∨ ext0 = reucTag then do
      let r := r.updateSha1 ext0
      let (tree, reuc, r) ←
        if ext0 = treeTag then do
          let (t, r) ← read_tree_extensiondata r
          pure (t, ([] : List (List Nat × ReucExtensionData)), r)
        else do
          let (u, r) ← read_reuc_extensiondata r
          pure (([] : List (List Nat × TreeExtensionData)), u, r)
      let (ext1, r) := r.readRaw 4
      if ext1 = reucTag then do
        let r := r.updateSha1 ext1
        let (u, r) ← read_reuc_extensiondata r
        pure (tree, u, ext1, r)
      else
        pure (tree, reuc, ext1, r)
    else
      pure (([] : List (List Nat × TreeExtensionData)),
            ([] : List (List Nat × ReucExtensionData)), ext0, r)
  let digest := sha1Fn r.hashed
  let (sha1read, _) :=
    if ext = treeTag ∨ ext = reucTag then r.readRaw 20
    else
      let (tail16, r') := r.readRaw 16
      (ext ++ tail16, r')
  if digest ≠ sha1read then
    .error .shaMismatch
  else
    .ok ⟨header, indexentries, conflictedentries, paths, files, tree, reuc⟩

/-- Model of `write_calc_crc`: write the bytes and return the CRC-32 of the
data continued from a running value. -/
def write_calc_crc (fw : FileW) (data : List Nat) (pcrc : Nat) : FileW × Nat :=
  (fw.write data, calculate_crc data pcrc)

/-- `HEADER_SIZE` in the source. -/
def HEADER_SIZE : Nat := 24

/-- Model of `write_header`: pack `!4sIIII` from the input signature, the
constant version 5, the number of distinct directories and the length of
the `files` list, a zero fanout base, then the CRC-32 word over those 20
bytes. -/
def write_header (fw : FileW) (header : Header) (paths : List (List Nat))
    (files : List (List Nat)) : FileW :=
  let bytes := pack4s header.signature ++ packU32 5 ++ packU32 paths.length ++
    packU32 files.length ++ packU32 0
  let (fw, crc) := write_calc_crc fw bytes 0
  fw.write (packU32 crc)

/-- Model of `write_fake_dir_offsets`: one zero `u32` per directory. -/
def write_fake_dir_offsets (fw : FileW) (paths : List (List Nat)) : FileW :=
  paths.foldl (fun fw _ => fw.write (packU32 0)) fw

/-- Model of `DIRECTORY_DATA_STRUCT.pack` (`!HIIIIII 20s`). Python 2.7's
`struct` range-checks the `I` fields, so a negative `nsubtrees` or
`nentries` (possible: `int("-1")` from the cache-tree) raises
`struct.error`, modelled as `none`. -/
def packDirectoryData (flags : Nat) (foffset cr ncr : Nat) (nsubtrees : Int)
    (nfiles : Nat) (nentries : Int) (objname : List Nat) : Option (List Nat) :=
  if 0 ≤ nsubtrees ∧ nsubtrees < 2 ^ 32 ∧ 0 ≤ nentries ∧ nentries < 2 ^ 32 then
    some (packU16 flags ++ packU32 foffset ++ packU32 cr ++ packU32 ncr ++
      packU32 nsubtrees.toNat ++ packU32 nfiles ++ packU32 nentries.toNat ++
      pack20s objname)
  else none

/-- The byte string written for a directory path: a single NUL for the root,
`path + "/" + NUL` otherwise. -/
def dirPathBytes (p : List Nat) : List Nat :=
  if p = [] then [0] else p ++ [47, 0]

/-- One iteration of the `write_directories` loop: record the record's
offset, write the path bytes, record the data offset, and write an all-zero
directory data block followed by a zero CRC word. -/
def writeDirsStep (st : FileW × List Nat × List (List Nat × Nat)) (p : List Nat) :
    FileW × List Nat × List (List Nat × Nat) :=
  let (fw, offs, dataoffs) := st
  let diroff := fw.tell
  let fw := fw.write (dirPathBytes p)
  let dataoff := fw.tell
  let fw := fw.write (packU16 0 ++ packU32 0 ++ packU32 0 ++ packU32 0 ++
    packU32 0 ++ packU32 0 ++ packU32 0 ++ pack20s (List.replicate 20 0))
  let fw := fw.write (packU32 0)
  (fw, offs ++ [diroff], dataoffs ++ [(p, dataoff)])

/-- Model of `write_directories`: iterate `writeDirsStep` over the distinct
directories in ascending order. -/
def write_directories (fw : FileW) (paths : List (List Nat)) :
    FileW × List Nat × List (List Nat × Nat) :=
  (sortLe lexLe paths).foldl writeDirsStep (fw, [], [])

/-- Model of `write_fake_file_offsets`: remember the current position, then
one zero `u32` per active entry. -/
def write_fake_file_offsets (fw : FileW) (indexentries : List IndexEntry) :
    FileW × Nat :=
  (indexentries.foldl (fun fw _ => fw.write (packU32 0)) fw, fw.tell)

/-- Model of `write_dir_offsets`: seek to `HEADER_SIZE` and write the
recorded directory offsets. -/
def write_dir_offsets (fw : FileW) (offsets : List Nat) : FileW :=
  offsets.foldl (fun fw o => fw.write (packU32 o)) (fw.seek HEADER_SIZE)

/-- The v5 flags word of a file record as the source computes it:
`(flags & 0x8000) + (flags & 0x3000) * 2`. -/
def fileFlagsWord (flags : Nat) : Nat := (flags &&& 0x8000) + (flags &&& 0x3000) * 2

/-- The stat CRC of a file record: CRC-32 over `!IIIIIIII` of offset,
ctime seconds, ctime nanoseconds, inode, file size, device, uid, gid. -/
def statCrcOf (entry : IndexEntry) (offset : Nat) : Nat :=
  calculate_crc (packU32 offset ++ packU32 entry.ctimesec ++
    packU32 entry.ctimensec ++ packU32 entry.ino ++ packU32 entry.filesize ++
    packU32 entry.dev ++ packU32 entry.uid ++ packU32 entry.gid) 0

/-- Model of `write_file_entry`: seed a CRC with `u32(offset)`, write the
file name plus NUL continuing the CRC, write the packed `!HHIII 20s` record
(v5 flags word, mode, mtime seconds, mtime nanoseconds, stat CRC, object
name) continuing the CRC, then write the CRC word. -/
def write_file_entry (fw : FileW) (entry : IndexEntry) (offset : Nat) : FileW :=
  let pcrc := calculate_crc (packU32 offset) 0
  let (fw, pcrc) := write_calc_crc fw (entry.filename ++ [0]) pcrc
  let stat_data := packU16 (fileFlagsWord entry.flags) ++ packU16 entry.mode ++
    packU32 entry.mtimesec ++ packU32 entry.mtimensec ++
    packU32 (statCrcOf entry offset) ++ pack20s entry.sha1
  let (fw, pcrc) := write_calc_crc fw stat_data pcrc
  fw.write (packU32 pcrc)

/-- Record one more active file under its directory: Python creates a
default `DirEntry()` for an unseen key and then increments its `nfiles`. -/
def bumpDir (dd : List (List Nat × DirEntry)) (p : List Nat) :
    List (List Nat × DirEntry) :=
  match dd with
  | [] => [(p, { DirEntry.init with nfiles := 1 })]
  | (q, d) :: rest =>
      if q = p then (q, { d with nfiles := d.nfiles + 1 }) :: rest
      else (q, d) :: bumpDir rest p

/-- One iteration of the `write_file_data` loop: remember the record's
offset, write the record, and count the file under its directory. -/
def writeFileStep (st : FileW × List Nat × List (List Nat × DirEntry))
    (entry : IndexEntry) : FileW × List Nat × List (List Nat × DirEntry) :=
  let (fw, foffs, dirdata) := st
  let offset := fw.tell
  let fw := write_file_entry fw entry offset
  (fw, foffs ++ [offset], bumpDir dirdata entry.pathname)

/-- Model of `write_file_data`: emit the active entries sorted (stably) by
directory, recording each record's offset and counting files per directory. -/
def write_file_data (fw : FileW) (indexentries : List IndexEntry) :
    FileW × List Nat × List (List Nat × DirEntry) :=
  (sortLe (fun a b => lexLe a.pathname b.pathname) indexentries).foldl
    writeFileStep (fw, [], [])

/-- Model of `write_file_offsets`: seek back to the file offset table and
write the recorded offsets. -/
def write_file_offsets (fw : FileW) (foffsets : List Nat)
    (fileoffsetbeginning : Nat) : FileW :=
  foffsets.foldl (fun fw o => fw.write (packU32 o)) (fw.seek fileoffsetbeginning)

/-- Model of `write_conflicted_data`: the body is `pass`, a no-op. -/
def write_conflicted_data (fw : FileW) (_conflictedentries : List (List Nat × IndexEntry))
    (_reucdata : List (List Nat × ReucExtensionData))
    (_dirdata : List (List Nat × DirEntry)) : FileW := fw

/-- One step of `compile_cache_tree_data`: at the key `path.strip("/")` —
raising `KeyError` when absent — set `nentries` to `int(entry_count)` and
`nsubtrees` to `int(subtrees)` (raising `ValueError` on malformed digits),
and overwrite `objname` with the stored hexlified digest unless it is the
`"invalid"` sentinel. -/
def compileTreeStep (dd : List (List Nat × DirEntry)) (path : List Nat)
    (entry : TreeExtensionData) : Except PError (List (List Nat × DirEntry)) := do
  let key := stripSlashes path
  if (dd.lookup key).isNone then .error .keyError
  else
    match parseDec entry.entry_count, parseDec entry.subtrees with
    | some ne, some ns =>
        .ok (dd.map (fun kv =>
          if kv.1 = key then
            (kv.1, { kv.2 with
              nentries := ne
              nsubtrees := ns
              objname := match entry.sha1 with
                | some s => s
                | none => kv.2.objname })
          else kv))
    | _, _ => .error .valueError

/-- Model of `compile_cache_tree_data`: fold the steps over the cache-tree
records. -/
def compile_cache_tree_data (dirdata : List (List Nat × DirEntry))
    (extensiondata : List (List Nat × TreeExtensionData)) :
    Except PError (List (List Nat × DirEntry)) :=
  extensiondata.foldlM (fun dd kv => compileTreeStep dd kv.1 kv.2) dirdata

/-- Model of the `write_directory_data` loop body for one directory: look up
the record's data offset (a missing key is skipped by the `except KeyError:
continue`), seed the CRC with the directory path bytes, pack and write the
directory data block with the running `foffset`, advance `foffset` by
`4 * nfiles`, and write the CRC word. Besides the file, the function
returns the list of records it wrote — `(path, foffset, entry)` — as a
trace for stating properties. -/
def writeDirRecord (fw : FileW) (dataoffs : List (List Nat × Nat))
    (pathname : List Nat) (entry : DirEntry) (foffset : Nat) :
    Except PError (FileW × Nat × Option (List Nat × Nat × DirEntry)) :=
  match dataoffs.lookup pathname with
  | none => .ok (fw, foffset, none)
  | some off =>
      let fw := fw.seek off
      let pcrc := calculate_crc (dirPathBytes pathname) 0
      match packDirectoryData entry.flags foffset entry.cr entry.ncr
          entry.nsubtrees entry.nfiles entry.nentries entry.objname with
      | none => .error .structError
      | some packed =>
          let (fw, pcrc) := write_calc_crc fw packed pcrc
          let fw := fw.write (packU32 pcrc)
          .ok (fw, foffset + entry.nfiles * 4, some (pathname, foffset, entry))

/-- One iteration of the `write_directory_data` loop. -/
def writeDirDataStep (dataoffs : List (List Nat × Nat))
    (st : FileW × Nat × List (List Nat × Nat × DirEntry))
    (kv : List Nat × DirEntry) :
    Except PError (FileW × Nat × List (List Nat × Nat × DirEntry)) := do
  let (fw, foffset, trace) := st
  let (fw, foffset, rec?) ← writeDirRecord fw dataoffs kv.1 kv.2 foffset
  match rec? with
  | none => pure (fw, foffset, trace)
  | some rec => pure (fw, foffset, trace ++ [rec])

/-- Model of `write_directory_data`: iterate the directory records in
ascending key order with a running `foffset` starting at the file offset
table. -/
def write_directory_data (fw : FileW) (dirdata : List (List Nat × DirEntry))
    (dataoffs : List (List Nat × Nat)) (fileoffsetbeginning : Nat) :
    Except PError (FileW × List (List Nat × Nat × DirEntry)) := do
  let st ← (sortLe (fun a b => lexLe a.1 b.1) dirdata).foldlM
    (writeDirDataStep dataoffs) (fw, fileoffsetbeginning, [])
  .ok (st.1, st.2.2)

/-- Model of `write_index_v5`: the fixed pass order of the writer. The
commented-out call to `write_conflicted_data` is omitted exactly as in the
source, so `conflictedentries` and `reucextensiondata` are never used. -/
def write_index_v5 (header : Header) (indexentries : List IndexEntry)
    (_conflictedentries : List (List Nat × IndexEntry)) (paths : List (List Nat))
    (files : List (List Nat)) (treeextensiondata : List (List Nat × TreeExtensionData))
    (_reucextensiondata : List (List Nat × ReucExtensionData)) :
    Except PError FileW := do
  let fw := FileW.empty
  let fw := write_header fw header paths files
  let fw := write_fake_dir_offsets fw paths
  let (fw, diroffsets, dirwritedataoffsets) := write_directories fw paths
  let (fw, fileoffsetbeginning) := write_fake_file_offsets fw indexentries
  let (fw, fileoffsets, dirdata) := write_file_data fw indexentries
  let fw := write_dir_offsets fw diroffsets
  let fw := write_file_offsets fw fileoffsets fileoffsetbeginning
  let dirdata ← compile_cache_tree_data dirdata treeextensiondata
  let (fw, _) ← write_directory_data fw dirdata dirwritedataoffsets fileoffsetbeginning
  .ok fw

/-- Model of `main` for the conversion: parse (and verify) the input; when
the parser raises, the program stops before `.git/index-v5` is even opened
(`none`); otherwise the writer runs (`some`, with a writer-side exception
meaning a partially written file). -/
def convert (sha1Fn : List Nat → List Nat) (input : List Nat) :
    Option (Except PError FileW) :=
  match read_index sha1Fn input with
  | .error _ => none
  | .ok p => some (write_index_v5 p.header p.indexentries p.conflictedentries
      p.paths p.files p.treeextensiondata p.reucextensiondata)

/-- `packU32` always yields 4 bytes. -/
theorem packU32_length (n : Nat) : (packU32 n).length = 4 := rfl

/-- `packU16` always yields 2 bytes. -/
theorem packU16_length (n : Nat) : (packU16 n).length = 2 := rfl

/-- `pack4s` always yields 4 bytes. -/
theorem pack4s_length (s : List Nat) : (pack4s s).length = 4 := by
  simp [pack4s]
  omega

/-- `pack20s` always yields 20 bytes. -/
theorem pack20s_length (s : List Nat) : (pack20s s).length = 20 := by
  simp [pack20s]
  omega

/-- Decoding an encoded 32-bit field recovers the value modulo `2 ^ 32`. -/
theorem beToNat_packU32 (n : Nat) : beToNat (packU32 n) = n % 2 ^ 32 := by
  simp [beToNat, packU32, List.foldl]
  omega

/-- Inserting preserves length. -/
theorem insertLe_length (le : α → α → Bool) (x : α) (l : List α) :
    (insertLe le x l).length = l.length + 1 := by
  induction l with
  | nil => rfl
  | cons y ys ih => by_cases h : le x y <;> simp [insertLe, h, ih]

/-- Sorting preserves length. -/
theorem sortLe_length (le : α → α → Bool) (l : List α) :
    (sortLe le l).length = l.length := by
  induction l with
  | nil => rfl
  | cons y ys ih => simp [sortLe, List.foldr] at ih ⊢; rw [insertLe_length, ih]

/-- Inserting is a permutation of consing. -/
theorem insertLe_perm (le : α → α → Bool) (x : α) (l : List α) :
    (insertLe le x l).Perm (x :: l) := by
  induction l with
  | nil => exact List.Perm.refl _
  | cons y ys ih =>
      by_cases h : le x y
      · simp [insertLe, h]
      · simp only [insertLe, h, if_false]
        exact (List.Perm.cons y ih).trans (List.Perm.swap x y ys)

/-- Sorting is a permutation of the input. -/
theorem sortLe_perm (le : α → α → Bool) (l : List α) : (sortLe le l).Perm l := by
  induction l with
  | nil => exact List.Perm.refl _
  | cons y ys ih =>
      simp only [sortLe, List.foldr] at ih ⊢
      exact (insertLe_perm le y _).trans (List.Perm.cons y ih)

/-- Membership in the model of `set.add`. -/
theorem insertSet_mem [DecidableEq α] (x y : α) (s : List α) :
    x ∈ insertSet y s ↔ x = y ∨ x ∈ s := by
  by_cases h : y ∈ s
  · simp only [insertSet, h, if_true]
    constructor
    · exact fun hx => Or.inr hx
    · rintro (rfl | hx) <;> assumption
  · simp [insertSet, h]

/-- The CRC-32 of a concatenation is the CRC-32 of the second part continued
from the CRC-32 of the first. -/
theorem calculate_crc_append (a b : List Nat) (s : Nat) :
    calculate_crc (a ++ b) s = calculate_crc b (calculate_crc a s) := by
  simp only [calculate_crc, List.foldl_append]
  congr 1
  rw [Nat.xor_assoc, Nat.xor_self, Nat.xor_zero]

/-- Two consecutive writes append the concatenation. -/
theorem FileW.write_write (f : FileW) (a b : List Nat) :
    (f.write a).write b = f.write (a ++ b) := by
  rcases f with ⟨buf, pos⟩
  simp only [FileW.write, FileW.mk.injEq]
  constructor
  · rcases le_or_lt pos buf.length with h | h
    · have h1 : (buf.take pos).length = pos := by
        simp [List.length_take]; omega
      have h2 : (buf.take pos ++ a ++ buf.drop (pos + a.length)).take (pos + a.length)
          = buf.take pos ++ a := by
        rw [List.append_assoc, List.take_append_eq_append_take, h1]
        rw [List.take_of_length_le (by rw [h1]; omega : (buf.take pos).length ≤ pos + a.length)]
        rw [List.take_append_eq_append_take]
        simp [h1]
      have h3 : (buf.take pos ++ a ++ buf.drop (pos + a.length)).drop (pos + a.length + b.length)
          = buf.drop (pos + a.length + b.length) := by
        rw [List.append_assoc, List.drop_append_eq_append_drop, h1]
        rw [List.drop_eq_nil_of_le (by rw [h1]; omega :
          (buf.take pos).length ≤ pos + a.length + b.length)]
        have e1 : pos + a.length + b.length - pos = a.length + b.length := by omega
        rw [e1, List.drop_append_eq_append_drop]
        rw [List.drop_eq_nil_of_le (by omega : a.length ≤ a.length + b.length)]
        have e2 : a.length + b.length - a.length = b.length := by omega
        rw [e2, List.drop_drop]
        simp only [List.nil_append]
      have e3 : pos + a.length + b.length = pos + (a ++ b).length := by
        simp only [List.length_append]; omega
      rw [h2, h3, e3]
      simp [List.append_assoc]
    · have hnil : buf.drop (pos + a.length) = [] := by
        apply List.drop_eq_nil_of_le; omega
      have hnil2 : buf.drop (pos + (a ++ b).length) = [] := by
        apply List.drop_eq_nil_of_le; simp; omega
      have htake : buf.take pos = buf := by
        apply List.take_of_length_le; omega
      have hlen : (buf ++ a).length ≤ pos + a.length := by simp; omega
      rw [hnil, hnil2, htake]
      simp only [List.append_nil]
      rw [List.take_of_length_le hlen]
      rw [List.drop_append_eq_append_drop]
      rw [List.drop_eq_nil_of_le (by omega : buf.length ≤ pos + a.length + b.length)]
      rw [List.drop_eq_nil_of_le (by omega :
        a.length ≤ pos + a.length + b.length - buf.length)]
      simp
  · simp only [List.length_append]
    omega

/-- The `files` list collects one file name per entry, so its length is the
total number of entries regardless of stage. -/
theorem classifyEntries_files_length (es : List IndexEntry) :
    (classifyEntries es).2.2.2.length = es.length := by
  induction es with
  | nil => rfl
  | cons e rest ih => simp [classifyEntries, ih]

/-- A directory is collected into `paths` exactly when some entry has it as
its directory component. -/
theorem classifyEntries_paths_mem (es : List IndexEntry) (p : List Nat) :
    p ∈ (classifyEntries es).2.2.1 ↔ ∃ e ∈ es, e.pathname = p := by
  induction es with
  | nil => simp [classifyEntries]
  | cons e rest ih =>
      simp only [classifyEntries]
      rw [insertSet_mem]
      simp only [List.mem_cons]
      constructor
      · rintro (h | h)
        · exact ⟨e, Or.inl rfl, h.symm⟩
        · obtain ⟨x, hx, hp⟩ := ih.mp h
          exact ⟨x, Or.inr hx, hp⟩
      · rintro ⟨x, hx | hx, hp⟩
        · exact Or.inl (hx ▸ hp.symm)
        · exact Or.inr (ih.mpr ⟨x, hx, hp⟩)

/-- Every element of the active list has stage 0 or 1. -/
theorem classifyEntries_active_stage (es : List IndexEntry) :
    ∀ x ∈ (classifyEntries es).1, stageOf x.flags = 0 ∨ stageOf x.flags = 1 := by
  induction es with
  | nil => simp [classifyEntries]
  | cons e rest ih =>
      simp only [classifyEntries]
      by_cases h : stageOf e.flags = 0 ∨ stageOf e.flags = 1
      · simp only [h, if_true]
        intro x hx
        rcases List.mem_cons.mp hx with rfl | hx
        · exact h
        · exact ih x hx
      · simp only [h, if_false]
        exact ih

/-- Every pair of the conflicted map comes from an entry of the input with
nonzero stage, keyed by its own directory. -/
theorem classifyEntries_conf_mem (es : List IndexEntry) (d : List Nat) (x : IndexEntry) :
    (d, x) ∈ (classifyEntries es).2.1 →
    stageOf x.flags ≠ 0 ∧ d = x.pathname ∧ x ∈ es := by
  induction es with
  | nil => simp [classifyEntries]
  | cons e rest ih =>
      simp only [classifyEntries]
      by_cases h : stageOf e.flags ≠ 0
      · rw [if_pos h]
        intro hx
        rcases List.mem_cons.mp hx with heq | hx
        · obtain ⟨h1, h2⟩ := Prod.mk.injEq .. ▸ heq
          injection heq with h1 h2
          subst h1; subst h2
          exact ⟨h, rfl, List.mem_cons_self ..⟩
        · obtain ⟨a, b, c⟩ := ih hx
          exact ⟨a, b, List.mem_cons_of_mem _ c⟩
      · rw [if_neg h]
        intro hx
        obtain ⟨a, b, c⟩ := ih hx
        exact ⟨a, b, List.mem_cons_of_mem _ c⟩

/-- Entries of stage 0 or 1 occur in the active list exactly as often as in
the input. -/
theorem classifyEntries_active_count (es : List IndexEntry) (e : IndexEntry)
    (h : stageOf e.flags = 0 ∨ stageOf e.flags = 1) :
    (classifyEntries es).1.count e = es.count e := by
  induction es with
  | nil => rfl
  | cons x rest ih =>
      simp only [classifyEntries]
      by_cases hx : stageOf x.flags = 0 ∨ stageOf x.flags = 1
      · simp only [hx, if_true, List.count_cons, ih]
      · simp only [hx, if_false, List.count_cons, ih]
        have : ¬ x = e := by
          rintro rfl
          exact hx h
        simp [this]

/-- Entries with nonzero stage land in the conflicted map at their own
directory. -/
theorem classifyEntries_conf_of_mem (es : List IndexEntry) (e : IndexEntry)
    (he : e ∈ es) (h : stageOf e.flags ≠ 0) :
    (e.pathname, e) ∈ (classifyEntries es).2.1 := by
  induction es with
  | nil => cases he
  | cons x rest ih =>
      simp only [classifyEntries]
      rcases List.mem_cons.mp he with rfl | hm
      · rw [if_pos h]
        exact List.mem_cons_self ..
      · by_cases hx : stageOf x.flags ≠ 0
        · rw [if_pos hx]
          exact List.mem_cons_of_mem _ (ih hm)
        · rw [if_neg hx]
          exact ih hm

/-- The total file count of a directory table. -/
def sumNfiles (dd : List (List Nat × DirEntry)) : Nat :=
  (dd.map (fun kv => kv.2.nfiles)).sum

/-- Counting one more file raises the total by exactly one. -/
theorem bumpDir_sum (dd : List (List Nat × DirEntry)) (p : List Nat) :
    sumNfiles (bumpDir dd p) = sumNfiles dd + 1 := by
  induction dd with
  | nil => rfl
  | cons kv rest ih =>
      rcases kv with ⟨q, d⟩
      by_cases h : q = p
      · simp [bumpDir, h, sumNfiles]
        omega
      · simp [bumpDir, h, sumNfiles] at ih ⊢
        omega

/-- A pointwise property preserved by creating a one-file record and by
incrementing a file count carries over `bumpDir`. -/
theorem bumpDir_pointwise (Q : DirEntry → Prop)
    (hinit : Q { DirEntry.init with nfiles := 1 })
    (hstep : ∀ d, Q d → Q { d with nfiles := d.nfiles + 1 })
    (dd : List (List Nat × DirEntry)) (p : List Nat)
    (hdd : ∀ kv ∈ dd, Q kv.2) :
    ∀ kv ∈ bumpDir dd p, Q kv.2 := by
  induction dd with
  | nil =>
      intro kv hkv
      simp only [bumpDir, List.mem_singleton] at hkv
      subst hkv
      exact hinit
  | cons kv0 rest ih =>
      rcases kv0 with ⟨q, d⟩
      intro kv hkv
      by_cases h : q = p
      · simp only [bumpDir, h, if_true] at hkv
        rcases List.mem_cons.mp hkv with rfl | hm
        · exact hstep d (hdd (q, d) (List.mem_cons_self ..))
        · exact hdd kv (List.mem_cons_of_mem _ hm)
      · simp only [bumpDir, h, if_false] at hkv
        rcases List.mem_cons.mp hkv with rfl | hm
        · exact hdd (q, d) (List.mem_cons_self ..)
        · exact ih (fun x hx => hdd x (List.mem_cons_of_mem _ hx)) kv hm

/-- Folding `writeFileStep` over a list adds its length to the total file
count of the directory table. -/
theorem writeFileStep_fold_sum (l : List IndexEntry) :
    ∀ st : FileW × List Nat × List (List Nat × DirEntry),
    sumNfiles ((l.foldl writeFileStep st).2.2) = sumNfiles st.2.2 + l.length := by
  induction l with
  | nil => intro st; rfl
  | cons e rest ih =>
      intro st
      rcases st with ⟨fw, foffs, dd⟩
      simp only [List.foldl_cons, List.length_cons]
      rw [ih]
      simp [writeFileStep, bumpDir_sum]
      omega

/-- Folding `writeFileStep` preserves a pointwise property of the table that
`bumpDir` preserves. -/
theorem writeFileStep_fold_pointwise (Q : DirEntry → Prop)
    (hinit : Q { DirEntry.init with nfiles := 1 })
    (hstep : ∀ d, Q d → Q { d with nfiles := d.nfiles + 1 })
    (l : List IndexEntry) :
    ∀ st : FileW × List Nat × List (List Nat × DirEntry),
    (∀ kv ∈ st.2.2, Q kv.2) →
    ∀ kv ∈ (l.foldl writeFileStep st).2.2, Q kv.2 := by
  induction l with
  | nil => intro st h; exact h
  | cons e rest ih =>
      intro st h
      rcases st with ⟨fw, foffs, dd⟩
      simp only [List.foldl_cons]
      exact ih _ (bumpDir_pointwise Q hinit hstep dd e.pathname h)

/-- The directory table built by `write_file_data` counts exactly the active
entries. -/
theorem write_file_data_sum (fw : FileW) (es : List IndexEntry) :
    sumNfiles (write_file_data fw es).2.2 = es.length := by
  unfold write_file_data
  rw [writeFileStep_fold_sum]
  simp [sumNfiles, sortLe_length]

/-- Every record of the directory table built by `write_file_data` has at
least one file and zero conflict fields. -/
theorem write_file_data_pointwise (fw : FileW) (es : List IndexEntry) :
    ∀ kv ∈ (write_file_data fw es).2.2,
      1 ≤ kv.2.nfiles ∧ kv.2.cr = 0 ∧ kv.2.ncr = 0 := by
  unfold write_file_data
  exact writeFileStep_fold_pointwise
    (fun d => 1 ≤ d.nfiles ∧ d.cr = 0 ∧ d.ncr = 0)
    ⟨le_refl 1, rfl, rfl⟩
    (fun d hd => ⟨Nat.le_add_left 1 d.nfiles, hd.2.1, hd.2.2⟩)
    _ _ (fun kv hkv => by cases hkv)

/-- A successful `compileTreeStep` only rewrites the cache-tree fields: each
output record keeps the `nfiles`, `cr` and `ncr` of an input record. -/
theorem compileTreeStep_preserves (dd dd' : List (List Nat × DirEntry))
    (path : List Nat) (e : TreeExtensionData)
    (h : compileTreeStep dd path e = .ok dd') :
    sumNfiles dd' = sumNfiles dd ∧
    ∀ kv ∈ dd', ∃ kv' ∈ dd, kv.2.nfiles = kv'.2.nfiles ∧
      kv.2.cr = kv'.2.cr ∧ kv.2.ncr = kv'.2.ncr := by
  unfold compileTreeStep at h
  by_cases hl : (dd.lookup (stripSlashes path)).isNone
  · simp [hl] at h
  · simp only [hl, if_false] at h
    rcases hp : parseDec e.entry_count with _ | ne <;> rw [hp] at h
    · cases h
    · rcases hq : parseDec e.subtrees with _ | ns <;> rw [hq] at h
      · cases h
      · injection h with h
        subst h
        constructor
        · unfold sumNfiles
          rw [List.map_map]
          congr 1
          apply List.map_congr_left
          intro kv _
          by_cases hk : kv.1 = stripSlashes path <;> simp [hk]
        · intro kv hkv
          rcases List.mem_map.mp hkv with ⟨kv', hkv', hh⟩
          refine ⟨kv', hkv', ?_⟩
          by_cases hk : kv'.1 = stripSlashes path <;> simp [hk] at hh <;>
            subst hh <;> simp

/-- A successful `compile_cache_tree_data` keeps the total file count and,
pointwise, the `nfiles`, `cr` and `ncr` of the records. -/
theorem compile_preserves (ext : List (List Nat × TreeExtensionData)) :
    ∀ dd dd', compile_cache_tree_data dd ext = .ok dd' →
    sumNfiles dd' = sumNfiles dd ∧
    ∀ kv ∈ dd', ∃ kv' ∈ dd, kv.2.nfiles = kv'.2.nfiles ∧
      kv.2.cr = kv'.2.cr ∧ kv.2.ncr = kv'.2.ncr := by
  induction ext with
  | nil =>
      intro dd dd' h
      injection h with h
      subst h
      exact ⟨rfl, fun kv hkv => ⟨kv, hkv, rfl, rfl, rfl⟩⟩
  | cons kv0 rest ih =>
      intro dd dd' h
      unfold compile_cache_tree_data at h
      rw [List.foldlM_cons] at h
      rcases hs : compileTreeStep dd kv0.1 kv0.2 with e | dd1 <;> rw [hs] at h
      · cases h
      · have h1 := compileTreeStep_preserves dd dd1 kv0.1 kv0.2 hs
        have h2 := ih dd1 dd' h
        refine ⟨h2.1.trans h1.1, fun kv hkv => ?_⟩
        obtain ⟨kv1, hkv1, e1, e2, e3⟩ := h2.2 kv hkv
        obtain ⟨kv2, hkv2, f1, f2, f3⟩ := h1.2 kv1 hkv1
        exact ⟨kv2, hkv2, e1.trans f1, e2.trans f2, e3.trans f3⟩

/-- Case analysis of one successful `write_directory_data` iteration: a
missing data offset leaves the state alone; otherwise the record is written,
`foffset` advances by `4 × nfiles`, and the record joins the trace. -/
theorem writeDirDataStep_ok (dataoffs : List (List Nat × Nat)) (fw : FileW)
    (fo : Nat) (tr : List (List Nat × Nat × DirEntry)) (kv : List Nat × DirEntry)
    (st' : FileW × Nat × List (List Nat × Nat × DirEntry))
    (h : writeDirDataStep dataoffs (fw, fo, tr) kv = .ok st') :
    (st'.2.1 = fo ∧ st'.2.2 = tr) ∨
    (st'.2.1 = fo + kv.2.nfiles * 4 ∧ st'.2.2 = tr ++ [(kv.1, fo, kv.2)]) := by
  unfold writeDirDataStep writeDirRecord at h
  dsimp only at h
  rcases hl : dataoffs.lookup kv.1 with _ | off <;> rw [hl] at h <;> dsimp only at h
  · left
    injection h with h
    subst h
    exact ⟨rfl, rfl⟩
  · rcases hp : packDirectoryData kv.2.flags fo kv.2.cr kv.2.ncr
        kv.2.nsubtrees kv.2.nfiles kv.2.nentries kv.2.objname with _ | packed <;>
      rw [hp] at h
    · cases h
    · right
      injection h with h
      subst h
      exact ⟨rfl, rfl⟩

/-- The invariant of the `write_directory_data` fold: every trace record was
either already present, or corresponds to a table record with its `foffset`
lying in the window `[fo0, fo0 + 4 × total)` allotted to the fold. -/
theorem writeDirDataStep_fold (dataoffs : List (List Nat × Nat))
    (l : List (List Nat × DirEntry)) :
    ∀ (fw : FileW) (fo0 : Nat) (acc0 : List (List Nat × Nat × DirEntry)) st',
    l.foldlM (writeDirDataStep dataoffs) (fw, fo0, acc0) = .ok st' →
    ∀ rec ∈ st'.2.2, rec ∈ acc0 ∨
      ((rec.1, rec.2.2) ∈ l ∧ fo0 ≤ rec.2.1 ∧
        rec.2.1 + rec.2.2.nfiles * 4 ≤ fo0 + 4 * sumNfiles l) := by
  induction l with
  | nil =>
      intro fw fo0 acc0 st' h rec hrec
      injection h with h
      subst h
      exact Or.inl hrec
  | cons kv rest ih =>
      intro fw fo0 acc0 st' h rec hrec
      rw [List.foldlM_cons] at h
      rcases hs : writeDirDataStep dataoffs (fw, fo0, acc0) kv with e | st1 <;>
        rw [hs] at h
      · cases h
      · have hstep := writeDirDataStep_ok dataoffs fw fo0 acc0 kv st1 hs
        have hsum : sumNfiles (kv :: rest) = kv.2.nfiles + sumNfiles rest := by
          simp [sumNfiles]
        rcases st1 with ⟨fw1, fo1, tr1⟩
        have h' : rest.foldlM (writeDirDataStep dataoffs) (fw1, fo1, tr1) = .ok st' := h
        rcases hstep with ⟨e1, e2⟩ | ⟨e1, e2⟩ <;> simp only [] at e1 e2 <;>
          subst e1 <;> subst e2
        · rcases ih _ _ _ _ h' rec hrec with hin | ⟨hm, h1, h2⟩
          · exact Or.inl hin
          · exact Or.inr ⟨List.mem_cons_of_mem _ hm, h1, by omega⟩
        · rcases ih _ _ _ _ h' rec hrec with hin | ⟨hm, h1, h2⟩
          · rcases List.mem_append.mp hin with hin | hin
            · exact Or.inl hin
            · simp only [List.mem_singleton] at hin
              subst hin
              refine Or.inr ⟨List.mem_cons_self .., le_refl _, ?_⟩
              show fo0 + kv.2.nfiles * 4 ≤ fo0 + 4 * sumNfiles (kv :: rest)
              omega
          · exact Or.inr ⟨List.mem_cons_of_mem _ hm, by omega, by omega⟩

/-- A permutation keeps the total file count. -/
theorem sumNfiles_perm (a b : List (List Nat × DirEntry)) (h : a.Perm b) :
    sumNfiles a = sumNfiles b := by
  unfold sumNfiles
  exact (h.map (fun kv => kv.2.nfiles)).sum_eq

/-- What `write_directory_data` guarantees for every record it writes: the
record's directory and entry are in the table, and its `foffset` window lies
between the start of the file offset table and the end determined by the
total file count. -/
theorem write_directory_data_trace (fw : FileW) (dirdata : List (List Nat × DirEntry))
    (dataoffs : List (List Nat × Nat)) (fob : Nat) (fw' : FileW)
    (trace : List (List Nat × Nat × DirEntry))
    (h : write_directory_data fw dirdata dataoffs fob = .ok (fw', trace)) :
    ∀ rec ∈ trace, (rec.1, rec.2.2) ∈ dirdata ∧ fob ≤ rec.2.1 ∧
      rec.2.1 + rec.2.2.nfiles * 4 ≤ fob + 4 * sumNfiles dirdata := by
  unfold write_directory_data at h
  rcases hf : (sortLe (fun a b => lexLe a.1 b.1) dirdata).foldlM
      (writeDirDataStep dataoffs) (fw, fob, []) with e | st <;> rw [hf] at h
  · cases h
  · have hst : trace = st.2.2 := by
      injection h with h
      injection h with h1 h2
      exact h2.symm
    have hperm := sortLe_perm (fun a b => lexLe a.1 b.1) dirdata
    intro rec hrec
    rw [hst] at hrec
    rcases writeDirDataStep_fold dataoffs _ _ _ _ _ hf rec hrec with hin | ⟨hm, h1, h2⟩
    · cases hin
    · refine ⟨hperm.mem_iff.mp hm, h1, ?_⟩
      rw [sumNfiles_perm _ _ hperm] at h2
      exact h2

/-- Each `write_directories` iteration appends one record offset and one
data-offset binding for its path. -/
theorem writeDirsStep_fold_shape (l : List (List Nat)) :
    ∀ st : FileW × List Nat × List (List Nat × Nat),
    ((l.foldl writeDirsStep st).2.1).length = st.2.1.length + l.length ∧
    ((l.foldl writeDirsStep st).2.2).map Prod.fst = st.2.2.map Prod.fst ++ l := by
  induction l with
  | nil => intro st; simp
  | cons p rest ih =>
      intro st
      rcases st with ⟨fw, offs, dataoffs⟩
      simp only [List.foldl_cons]
      obtain ⟨ih1, ih2⟩ := ih (writeDirsStep (fw, offs, dataoffs) p)
      constructor
      · rw [ih1]
        simp [writeDirsStep]
        omega
      · rw [ih2]
        simp [writeDirsStep]

/-- `write_directories` emits exactly one record per distinct directory, in
ascending order. -/
theorem write_directories_shape (fw : FileW) (paths : List (List Nat)) :
    (write_directories fw paths).2.1.length = paths.length ∧
    (write_directories fw paths).2.2.map Prod.fst = sortLe lexLe paths := by
  unfold write_directories
  obtain ⟨h1, h2⟩ := writeDirsStep_fold_shape (sortLe lexLe paths) (fw, [], [])
  exact ⟨by rw [h1]; simp [sortLe_length], by rw [h2]; simp⟩

/-- The sum of the high-bit mask and the doubled stage mask has no carries,
so it coincides with the bitwise or of the claim's formula. -/
theorem fileFlagsWord_eq_lor (f : Nat) :
    fileFlagsWord f = (f &&& 0x8000) ||| ((f &&& 0x3000) <<< 1) := by
  have e15 : f &&& 32768 = (f.testBit 15).toNat * 32768 := by
    have := Nat.and_two_pow f 15
    norm_num at this
    exact this
  have e13 : f &&& 8192 = (f.testBit 13).toNat * 8192 := by
    have := Nat.and_two_pow f 13
    norm_num at this
    exact this
  have e12 : f &&& 4096 = (f.testBit 12).toNat * 4096 := by
    have := Nat.and_two_pow f 12
    norm_num at this
    exact this
  have h12288 : (12288 : Nat) = 8192 ||| 4096 := by decide
  show (f &&& 32768) + (f &&& 12288) * 2 = (f &&& 32768) ||| ((f &&& 12288) <<< 1)
  rw [h12288]
  simp only [Nat.and_or_distrib_left, e15, e13, e12]
  cases h15 : f.testBit 15 <;> cases h13 : f.testBit 13 <;> cases h12 : f.testBit 12 <;>
    decide

/-- Scanning for a missing delimiter fails. -/
theorem scanName_none (delim : Nat) (l : List Nat) (h : delim ∉ l) :
    scanName delim l = none := by
  induction l with
  | nil => rfl
  | cons b rest ih =>
      have hb : ¬ b = delim := fun e => h (e ▸ List.mem_cons_self ..)
      simp only [scanName, hb, if_false]
      rw [ih (fun hm => h (List.mem_cons_of_mem _ hm))]
      rfl

/-- Dropping as many elements as a truncating `take` returns is plain
dropping. -/
theorem drop_takeLength (l : List α) (n : Nat) :
    l.drop ((l.take n).length) = l.drop n := by
  rcases le_or_lt l.length n with h | h
  · rw [List.drop_eq_nil_of_le h,
      List.drop_eq_nil_of_le (by simp [List.length_take]; omega)]
  · congr 1
    simp [List.length_take]
    omega

/-- What is left to read after a (possibly short) read. -/
theorem Reader.remaining_read (r : Reader) (n : Nat) :
    ((r.read n).2).remaining = r.remaining.drop n := by
  show r.data.drop (r.pos + ((r.data.drop r.pos).take n).length)
      = (r.data.drop r.pos).drop n
  rw [List.drop_drop]
  have ht : ((r.data.drop r.pos).take n).length = min n (r.data.length - r.pos) := by
    simp [List.length_take]
  rw [ht]
  rcases le_or_lt r.data.length (r.pos + n) with h | h
  · rw [List.drop_eq_nil_of_le (by omega), List.drop_eq_nil_of_le (by omega)]
  · congr 1
    omega

/-- When the delimiter never occurs in the rest of the input, the literal
`read_name` loop returns nothing for any amount of fuel: the Python loop
never terminates, because reading at end of file yields the empty string,
which never equals the delimiter. -/
theorem readNameLoop_none (delim : Nat) :
    ∀ (fuel : Nat) (r : Reader) (acc : List Nat) (cnt : Nat),
    delim ∉ r.remaining → readNameLoop delim fuel r acc cnt = none := by
  intro fuel
  induction fuel with
  | zero => intro r acc cnt _; rfl
  | succ fuel ih =>
      intro r acc cnt h
      unfold readNameLoop
      have hbyte : (r.read 1).1 = r.remaining.take 1 := rfl
      have hrem : ((r.read 1).2).remaining = r.remaining.drop 1 :=
        Reader.remaining_read r 1
      rcases hread : r.read 1 with ⟨byte, r'⟩
      rw [hread] at hbyte hrem
      dsimp only at hbyte hrem ⊢
      rcases hr : r.remaining with _ | ⟨b, rest⟩
      · rw [hr] at hbyte hrem
        have hne : ¬ byte = [delim] := by
          rw [hbyte]
          exact fun hx => List.noConfusion hx
        rw [if_neg hne]
        apply ih
        rw [hrem]
        exact List.not_mem_nil delim
      · rw [hr] at hbyte hrem
        have hb : ¬ b = delim := by
          intro e
          exact h (by rw [hr, e]; exact List.mem_cons_self ..)
        have hne : ¬ byte = [delim] := by
          rw [hbyte]
          intro hx
          injection hx with h1 _
          exact hb h1
        rw [if_neg hne]
        apply ih
        rw [hrem]
        intro hm
        exact h (by rw [hr]; exact List.mem_cons_of_mem _ hm)

/-- The 32-bit field at offset 12 of a buffer whose first 12 bytes are
followed by a packed `u32`. -/
theorem u32At_twelve (a b : List Nat) (n : Nat) (h : a.length = 12) :
    u32At (a ++ packU32 n ++ b) 12 = n % 2 ^ 32 := by
  unfold u32At
  rw [List.append_assoc, ← h, List.drop_left]
  rw [← packU32_length n, List.take_left]
  exact beToNat_packU32 n

/-- Equality of `Except` values is decidable when it is on both sides. -/
instance [DecidableEq ε] [DecidableEq α] : DecidableEq (Except ε α) := fun a b =>
  match a, b with
  | .error e, .error f =>
      if h : e = f then isTrue (by rw [h])
      else isFalse (fun hh => h (by injection hh))
  | .ok x, .ok y =>
      if h : x = y then isTrue (by rw [h])
      else isFalse (fun hh => h (by injection hh))
  | .error _, .ok _ => isFalse (fun hh => Except.noConfusion hh)
  | .ok _, .error _ => isFalse (fun hh => Except.noConfusion hh)

/-- A stand-in SHA-1 function for concrete runs: every digest is 20 zero
bytes (the checksum comparison only needs the digest to be a function of the
absorbed bytes). -/
def shaZ : List Nat → List Nat := fun _ => List.replicate 20 0

/-- A well-formed empty v2 index whose stored trailer (20 bytes of `0x01`)
differs from the `shaZ` digest. -/
def inputBadTrailer : List Nat :=
  [68, 73, 82, 67] ++ packU32 2 ++ packU32 0 ++ List.replicate 20 1

/-- An empty index with signature `"XXXX"` and version 9, with a trailer
matching the `shaZ` digest. -/
def inputBadHeader : List Nat :=
  [88, 88, 88, 88] ++ packU32 9 ++ packU32 0 ++ List.replicate 20 0

/-- C4: whenever the parser reports the checksum mismatch (`SHAError`), the
conversion produces no output file at all: `main` runs `read_index` first
and `.git/index-v5` is only opened inside `write_index_v5`, which is never
reached. -/
theorem C4_checksum_atomic (sha1Fn : List Nat → List Nat) (input : List Nat)
    (h : read_index sha1Fn input = .error .shaMismatch) :
    convert sha1Fn input = none := by
  unfold convert
  rw [h]

/-- Witness for C4 at a concrete corrupt-trailer input. -/
theorem C4_checksum_atomic_witness :
    read_index shaZ inputBadTrailer = .error .shaMismatch ∧
    convert shaZ inputBadTrailer = none :=
  ⟨by decide, C4_checksum_atomic shaZ inputBadTrailer (by decide)⟩

/-- C6 counterexample: `read_header` performs no validation, so a header
with signature `"XXXX"` and version 9 is accepted, and `read_index` even
completes successfully on such an input — the claimed `BadSignature` and
`UnsupportedVersion` failures do not exist in the code. -/
theorem C6_counterexample :
    read_header ⟨inputBadHeader, 0, []⟩ =
      .ok (⟨[88, 88, 88, 88], 9, 0⟩,
        ⟨inputBadHeader, 12, inputBadHeader.take 12⟩) ∧
    read_index shaZ inputBadHeader =
      .ok ⟨⟨[88, 88, 88, 88], 9, 0⟩, [], [], [], [], [], []⟩ := by
  decide

/-- C6 amended: `read_header` accepts any 12-byte header — unpacking the
signature, version and entry count with no validation — and fails only when
fewer than 12 bytes are available. -/
theorem C6_amended (r : Reader) (h : 12 ≤ r.remaining.length) :
    read_header r = .ok
      (⟨(r.remaining.take 12).take 4, u32At (r.remaining.take 12) 4,
        u32At (r.remaining.take 12) 8⟩,
       ⟨r.data, r.pos + 12, r.hashed ++ r.remaining.take 12⟩) := by
  have hlen : (r.remaining.take 12).length = 12 := by
    simp only [List.length_take, Reader.remaining] at h ⊢
    omega
  unfold read_header Reader.read
  dsimp only
  simp only [Reader.remaining] at hlen ⊢
  rw [hlen]
  simp

/-- Witness for C6 amended at a concrete reader. -/
theorem C6_amended_witness :
    12 ≤ (Reader.remaining ⟨inputBadHeader, 0, []⟩).length ∧
    read_header ⟨inputBadHeader, 0, []⟩ = .ok
      (⟨((Reader.remaining ⟨inputBadHeader, 0, []⟩).take 12).take 4,
        u32At ((Reader.remaining ⟨inputBadHeader, 0, []⟩).take 12) 4,
        u32At ((Reader.remaining ⟨inputBadHeader, 0, []⟩).take 12) 8⟩,
       ⟨inputBadHeader, 0 + 12, [] ++ (Reader.remaining ⟨inputBadHeader, 0, []⟩).take 12⟩) :=
  ⟨by decide, C6_amended ⟨inputBadHeader, 0, []⟩ (by decide)⟩

/-- C9 counterexample: a read that returns fewer bytes than requested
succeeds with the short data instead of failing; a truncated fixed-width
field surfaces as a `struct.error`, not as any truncated-input report; and
reading a NUL-terminated name from an input without a NUL makes no progress
for any concrete fuel (1000 here) — the loop never reports an error. -/
theorem C9_counterexample :
    (Reader.read ⟨[68, 73, 82, 67], 0, []⟩ 12).1 = [68, 73, 82, 67] ∧
    read_index shaZ [68, 73, 82, 67] = .error .structError ∧
    readNameLoop 0 1000 ⟨[65, 66], 0, []⟩ [] 0 = none ∧
    read_name ⟨[65, 66], 0, []⟩ 0 = none := by
  decide

/-- C9 amended: `Reader.read` performs no short-read check and returns
whatever bytes remain, and when the delimiter does not occur in the rest of
the input the `read_name` loop never terminates — for every fuel bound the
transcribed loop has not finished, and its terminating denotation is
`none` — so no `TruncatedInput` error is ever reported. -/
theorem C9_amended (r : Reader) (n delim : Nat) (h : delim ∉ r.remaining) :
    (r.read n).1 = r.remaining.take n ∧
    (∀ fuel acc cnt, readNameLoop delim fuel r acc cnt = none) ∧
    read_name r delim = none := by
  refine ⟨rfl, fun fuel acc cnt => readNameLoop_none delim fuel r acc cnt h, ?_⟩
  unfold read_name
  rw [scanName_none delim _ h]
  rfl

/-- Witness for C9 amended at a concrete reader with no NUL in the data. -/
theorem C9_amended_witness :
    (0 : Nat) ∉ (Reader.remaining ⟨[65, 66], 0, []⟩) ∧
    ((Reader.read ⟨[65, 66], 0, []⟩ 5).1 = (Reader.remaining ⟨[65, 66], 0, []⟩).take 5 ∧
     (∀ fuel acc cnt, readNameLoop 0 fuel ⟨[65, 66], 0, []⟩ acc cnt = none) ∧
     read_name ⟨[65, 66], 0, []⟩ 0 = none) :=
  ⟨by decide, C9_amended ⟨[65, 66], 0, []⟩ 5 0 (by decide)⟩

/-- A stage-2 conflicted entry at the root (flags pattern `0x2000`). -/
def entryStage2 : IndexEntry :=
  ⟨0, 0, 0, 0, 0, 0, 0, 0, 0, 0, List.replicate 20 0, 0x2000, [], [102], none⟩

/-- C2 counterexample: for an input consisting of one stage-2 entry, the
`n_files` field written at offset 12 of the v5 header is 1 — the length of
the `files` list, which collects every entry — while the number of active
entries is 0, refuting the claim that `n_files` counts active entries. -/
theorem C2_counterexample :
    u32At ((write_header FileW.empty ⟨[68, 73, 82, 67], 2, 1⟩
        (classifyEntries [entryStage2]).2.2.1
        (classifyEntries [entryStage2]).2.2.2).buf) 12 = 1 ∧
    (classifyEntries [entryStage2]).1.length = 0 ∧
    ¬ u32At ((write_header FileW.empty ⟨[68, 73, 82, 67], 2, 1⟩
        (classifyEntries [entryStage2]).2.2.1
        (classifyEntries [entryStage2]).2.2.2).buf) 12
      = (classifyEntries [entryStage2]).1.length := by
  decide

/-- The bytes of the written v5 header: the 20 packed bytes followed by
their CRC word. -/
theorem write_header_buf (hdr : Header) (ps fs : List (List Nat)) :
    (write_header FileW.empty hdr ps fs).buf =
      pack4s hdr.signature ++ packU32 5 ++ packU32 ps.length ++
      packU32 fs.length ++ packU32 0 ++
      packU32 (calculate_crc (pack4s hdr.signature ++ packU32 5 ++
        packU32 ps.length ++ packU32 fs.length ++ packU32 0) 0) := by
  unfold write_header write_calc_crc
  dsimp only
  rw [FileW.write_write]
  simp [FileW.write, FileW.empty, List.append_assoc]

/-- C2 amended: the `n_files` header field holds the length of the `files`
list, which is the total number of parsed entries — conflicted stage-2/3
entries included, not excluded. -/
theorem C2_amended (hdr : Header) (es : List IndexEntry) :
    u32At ((write_header FileW.empty hdr (classifyEntries es).2.2.1
        (classifyEntries es).2.2.2).buf) 12 = es.length % 2 ^ 32 ∧
    (classifyEntries es).2.2.2.length = es.length := by
  refine ⟨?_, classifyEntries_files_length es⟩
  rw [write_header_buf]
  have h12 : (pack4s hdr.signature ++ packU32 5 ++
      packU32 (classifyEntries es).2.2.1.length).length = 12 := by
    simp [pack4s_length, packU32_length]
  have hu := u32At_twelve
    (pack4s hdr.signature ++ packU32 5 ++ packU32 (classifyEntries es).2.2.1.length)
    (packU32 0 ++ packU32 (calculate_crc (pack4s hdr.signature ++ packU32 5 ++
      packU32 (classifyEntries es).2.2.1.length ++
      packU32 (classifyEntries es).2.2.2.length ++ packU32 0) 0))
    (classifyEntries es).2.2.2.length h12
  simp only [List.append_assoc] at hu ⊢
  rw [hu, classifyEntries_files_length]

/-- One index entry record of a v2 file: 62 zero bytes of stat data, object
name and flags, then `src/a.c` with its NUL and two padding NULs. -/
def entrySrcABytes : List Nat :=
  List.replicate 62 0 ++ [115, 114, 99, 47, 97, 46, 99] ++ [0, 0, 0]

/-- The same with file name `src/b.c`. -/
def entrySrcBBytes : List Nat :=
  List.replicate 62 0 ++ [115, 114, 99, 47, 98, 46, 99] ++ [0, 0, 0]

/-- A v2 index holding exactly `src/a.c` and `src/b.c`, with a trailer
matching the `shaZ` digest. -/
def inputTwoSrc : List Nat :=
  [68, 73, 82, 67] ++ packU32 2 ++ packU32 2 ++ entrySrcABytes ++ entrySrcBBytes ++
    List.replicate 20 0

/-- A v2 index with no entries, with a trailer matching the `shaZ` digest. -/
def inputEmptyIdx : List Nat :=
  [68, 73, 82, 67] ++ packU32 2 ++ packU32 0 ++ List.replicate 20 0

/-- C3 counterexample: converting an index with exactly `src/a.c` and
`src/b.c` collects the single directory `src` — the root `""` is absent —
and `write_directories` emits one record, not two; converting an empty
index collects no directory at all and emits no record, not one. -/
theorem C3_counterexample :
    (read_index shaZ inputTwoSrc).map ParseResult.paths = .ok [[115, 114, 99]] ∧
    ¬ ([] ∈ [[115, 114, 99]]) ∧
    (write_directories FileW.empty [[115, 114, 99]]).2.1.length = 1 ∧
    (read_index shaZ inputTwoSrc).map
      (fun p => (write_file_data FileW.empty p.indexentries).2.2.map
        (fun kv => (kv.1, kv.2.nfiles))) = .ok [([115, 114, 99], 2)] ∧
    (read_index shaZ inputEmptyIdx).map ParseResult.paths = .ok [] ∧
    (write_directories FileW.empty []).2.1.length = 0 := by
  decide

/-- C3 amended: a directory record for the root `""` exists in the v5
output exactly when some entry's directory component is empty; in general
`write_directories` emits one record per distinct directory of the input
entries, in ascending order — so `src/a.c` plus `src/b.c` yield one record
and an empty index yields none. -/
theorem C3_amended (fw : FileW) (es : List IndexEntry) :
    ([] ∈ (classifyEntries es).2.2.1 ↔ ∃ e ∈ es, e.pathname = []) ∧
    (write_directories fw (classifyEntries es).2.2.1).2.1.length
      = (classifyEntries es).2.2.1.length ∧
    (write_directories fw (classifyEntries es).2.2.1).2.2.map Prod.fst
      = sortLe lexLe (classifyEntries es).2.2.1 :=
  ⟨classifyEntries_paths_mem es [], (write_directories_shape fw _).1,
    (write_directories_shape fw _).2⟩

/-- C5: for every parsed entry, the stage is between 0 and 3; stage-0
entries occur in the active list exactly as often as in the input and never
in the conflicted map; stage-1 entries occur in the active list exactly as
often as in the input and in the conflicted map at their directory; stage-2
and stage-3 entries are absent from the active list and present in the
conflicted map at their directory. -/
theorem C5_stage_classification (es : List IndexEntry) (e : IndexEntry)
    (he : e ∈ es) :
    stageOf e.flags ≤ 3 ∧
    (stageOf e.flags = 0 →
      (classifyEntries es).1.count e = es.count e ∧
      ∀ d, (d, e) ∉ (classifyEntries es).2.1) ∧
    (stageOf e.flags = 1 →
      (classifyEntries es).1.count e = es.count e ∧
      e ∈ (classifyEntries es).1 ∧
      (e.pathname, e) ∈ (classifyEntries es).2.1) ∧
    ((stageOf e.flags = 2 ∨ stageOf e.flags = 3) →
      e ∉ (classifyEntries es).1 ∧
      (e.pathname, e) ∈ (classifyEntries es).2.1) := by
  refine ⟨?_, ?_, ?_, ?_⟩
  · show (e.flags &&& 0x3000) / 0x1000 ≤ 3
    have h1 : e.flags &&& 0x3000 ≤ 0x3000 := Nat.and_le_right
    omega
  · intro h0
    refine ⟨classifyEntries_active_count es e (Or.inl h0), fun d hd => ?_⟩
    exact (classifyEntries_conf_mem es d e hd).1 h0
  · intro h1
    have hcount := classifyEntries_active_count es e (Or.inr h1)
    refine ⟨hcount, ?_, ?_⟩
    · rw [← List.count_pos_iff, hcount, List.count_pos_iff]
      exact he
    · exact classifyEntries_conf_of_mem es e he (by omega)
  · intro h23
    constructor
    · intro hm
      rcases classifyEntries_active_stage es e hm with h | h <;> omega
    · exact classifyEntries_conf_of_mem es e he (by omega)

/-- Witness for C5 at the concrete one-element stage-2 input. -/
theorem C5_stage_classification_witness :
    entryStage2 ∈ [entryStage2] ∧
    (stageOf entryStage2.flags ≤ 3 ∧
     (stageOf entryStage2.flags = 0 →
       (classifyEntries [entryStage2]).1.count entryStage2 = [entryStage2].count entryStage2 ∧
       ∀ d, (d, entryStage2) ∉ (classifyEntries [entryStage2]).2.1) ∧
     (stageOf entryStage2.flags = 1 →
       (classifyEntries [entryStage2]).1.count entryStage2 = [entryStage2].count entryStage2 ∧
       entryStage2 ∈ (classifyEntries [entryStage2]).1 ∧
       (entryStage2.pathname, entryStage2) ∈ (classifyEntries [entryStage2]).2.1) ∧
     ((stageOf entryStage2.flags = 2 ∨ stageOf entryStage2.flags = 3) →
       entryStage2 ∉ (classifyEntries [entryStage2]).1 ∧
       (entryStage2.pathname, entryStage2) ∈ (classifyEntries [entryStage2]).2.1)) :=
  ⟨List.mem_singleton_self _,
   C5_stage_classification [entryStage2] entryStage2 (List.mem_singleton_self _)⟩

/-- Transcription of claim C7's description of a file record: the file name
plus NUL; a packed record of the v5 flags word
`(flags & 0x8000) | ((flags & 0x3000) << 1)`, the mode, the mtime seconds
and nanoseconds, the stat CRC over `u32(offset), ctimesec, ctimensec, ino,
filesize, dev, uid, gid`, and the 20-byte object name; and a trailing
CRC-32 word over the name-plus-NUL bytes and the packed record, seeded by
the CRC-32 of `u32(offset)`. -/
def fileRecordSpec (entry : IndexEntry) (offset : Nat) : List Nat :=
  let packed := packU16 ((entry.flags &&& 0x8000) ||| ((entry.flags &&& 0x3000) <<< 1)) ++
    packU16 entry.mode ++ packU32 entry.mtimesec ++ packU32 entry.mtimensec ++
    packU32 (calculate_crc (packU32 offset ++ packU32 entry.ctimesec ++
      packU32 entry.ctimensec ++ packU32 entry.ino ++ packU32 entry.filesize ++
      packU32 entry.dev ++ packU32 entry.uid ++ packU32 entry.gid) 0) ++
    pack20s entry.sha1
  entry.filename ++ [0] ++ packed ++
    packU32 (calculate_crc ((entry.filename ++ [0]) ++ packed)
      (calculate_crc (packU32 offset) 0))

/-- C7: `write_file_entry` writes exactly the bytes claimed: the packed
`!HHIII 20s` record with the widened flags word and the stat CRC, and the
record CRC over name-plus-NUL and packed record seeded by the CRC of
`u32(offset)`. -/
theorem C7_file_record (fw : FileW) (entry : IndexEntry) (offset : Nat) :
    write_file_entry fw entry offset = fw.write (fileRecordSpec entry offset) := by
  unfold write_file_entry write_calc_crc fileRecordSpec statCrcOf
  dsimp only
  rw [FileW.write_write, FileW.write_write]
  rw [fileFlagsWord_eq_lor]
  rw [calculate_crc_append (entry.filename ++ [0])]
  simp only [List.append_assoc]

/-- C8: after a successful conversion, the sum of `nfiles` over the
directory table equals the number of active entries, and every directory
record written by `write_directory_data` — walking the table in ascending
path order with `foffset` starting at the file offset table — has its
`foffset` inside the table and `foffset + 4 × nfiles` at most at its end. -/
theorem C8_dir_aggregates (fw fw1 : FileW) (es : List IndexEntry)
    (ext : List (List Nat × TreeExtensionData)) (dd' : List (List Nat × DirEntry))
    (dataoffs : List (List Nat × Nat)) (fob : Nat) (fw2 : FileW)
    (trace : List (List Nat × Nat × DirEntry))
    (hc : compile_cache_tree_data (write_file_data fw es).2.2 ext = .ok dd')
    (hw : write_directory_data fw1 dd' dataoffs fob = .ok (fw2, trace)) :
    sumNfiles dd' = es.length ∧
    ∀ rec ∈ trace, fob ≤ rec.2.1 ∧
      rec.2.1 + 4 * rec.2.2.nfiles ≤ fob + 4 * es.length ∧
      rec.2.1 < fob + 4 * es.length := by
  obtain ⟨hsum, hpt⟩ := compile_preserves ext _ _ hc
  have hsum' : sumNfiles dd' = es.length := by
    rw [hsum, write_file_data_sum]
  refine ⟨hsum', fun rec hrec => ?_⟩
  obtain ⟨hmem, h1, h2⟩ :=
    write_directory_data_trace fw1 dd' dataoffs fob fw2 trace hw rec hrec
  obtain ⟨kv', hkv', e1, _, _⟩ := hpt (rec.1, rec.2.2) hmem
  have hge := (write_file_data_pointwise fw es kv' hkv').1
  have hnf : 1 ≤ rec.2.2.nfiles := by
    have : rec.2.2.nfiles = kv'.2.nfiles := e1
    omega
  rw [hsum'] at h2
  exact ⟨h1, by omega, by omega⟩

/-- A stage-0 entry named `a` at the root. -/
def entryRootA : IndexEntry :=
  ⟨0, 0, 0, 0, 0, 0, 0, 0, 0, 0, List.replicate 20 0, 0, [], [97], none⟩

/-- The directory table of the one-entry run used as a concrete witness. -/
def c8dirdata : List (List Nat × DirEntry) :=
  (write_file_data FileW.empty [entryRootA]).2.2

/-- The trace of the concrete `write_directory_data` run: one root record at
`foffset = 100`. -/
def c8trace : List (List Nat × Nat × DirEntry) :=
  [([], 100, ⟨1, 0, 0, 0, 0, 0, List.replicate 20 0⟩)]

/-- The file produced by the concrete `write_directory_data` run. -/
def c8fw2 : FileW :=
  match write_directory_data FileW.empty c8dirdata [([], 30)] 100 with
  | .ok st => st.1
  | .error _ => FileW.empty

/-- Witness for C8 at the concrete one-entry run. -/
theorem C8_dir_aggregates_witness :
    compile_cache_tree_data (write_file_data FileW.empty [entryRootA]).2.2 [] =
      .ok c8dirdata ∧
    write_directory_data FileW.empty c8dirdata [([], 30)] 100 =
      .ok (c8fw2, c8trace) ∧
    (sumNfiles c8dirdata = 1 ∧
     ∀ rec ∈ c8trace, 100 ≤ rec.2.1 ∧
       rec.2.1 + 4 * rec.2.2.nfiles ≤ 100 + 4 * 1 ∧
       rec.2.1 < 100 + 4 * 1) :=
  ⟨by decide, by decide,
   C8_dir_aggregates FileW.empty FileW.empty [entryRootA] [] c8dirdata
     [([], 30)] 100 c8fw2 c8trace (by decide) (by decide)⟩

/-- C10: the conflict-record writer is a no-op; its invocation in
`write_index_v5` is commented out, so the output is independent of both the
conflicted map and the resolve-undo data; and every directory record —
initially zeroed by `write_directories`, then filled from the table — has
`cr = 0` and `ncr = 0`, since nothing ever sets those fields. -/
theorem C10_conflicts_disabled :
    (∀ (fw : FileW) (c : List (List Nat × IndexEntry))
       (r : List (List Nat × ReucExtensionData)) (d : List (List Nat × DirEntry)),
       write_conflicted_data fw c r d = fw) ∧
    (∀ (hdr : Header) (act : List IndexEntry)
       (c1 c2 : List (List Nat × IndexEntry)) (ps fs : List (List Nat))
       (tr : List (List Nat × TreeExtensionData))
       (r1 r2 : List (List Nat × ReucExtensionData)),
       write_index_v5 hdr act c1 ps fs tr r1 = write_index_v5 hdr act c2 ps fs tr r2) ∧
    (∀ (fw : FileW) (es : List IndexEntry) (ext : List (List Nat × TreeExtensionData))
       (dd' : List (List Nat × DirEntry)),
       compile_cache_tree_data (write_file_data fw es).2.2 ext = .ok dd' →
       ∀ kv ∈ dd', kv.2.cr = 0 ∧ kv.2.ncr = 0) ∧
    (∀ (fw fw1 : FileW) (es : List IndexEntry) (ext : List (List Nat × TreeExtensionData))
       (dd' : List (List Nat × DirEntry)) (dataoffs : List (List Nat × Nat))
       (fob : Nat) (fw2 : FileW) (trace : List (List Nat × Nat × DirEntry)),
       compile_cache_tree_data (write_file_data fw es).2.2 ext = .ok dd' →
       write_directory_data fw1 dd' dataoffs fob = .ok (fw2, trace) →
       ∀ rec ∈ trace, rec.2.2.cr = 0 ∧ rec.2.2.ncr = 0) := by
  have hdd : ∀ (fw : FileW) (es : List IndexEntry)
      (ext : List (List Nat × TreeExtensionData)) (dd' : List (List Nat × DirEntry)),
      compile_cache_tree_data (write_file_data fw es).2.2 ext = .ok dd' →
      ∀ kv ∈ dd', kv.2.cr = 0 ∧ kv.2.ncr = 0 := by
    intro fw es ext dd' hc kv hkv
    obtain ⟨_, hpt⟩ := compile_preserves ext _ _ hc
    obtain ⟨kv', hkv', _, e2, e3⟩ := hpt kv hkv
    have h0 := write_file_data_pointwise fw es kv' hkv'
    exact ⟨e2.trans h0.2.1, e3.trans h0.2.2⟩
  refine ⟨fun fw c r d => rfl, fun hdr act c1 c2 ps fs tr r1 r2 => rfl, hdd, ?_⟩
  intro fw fw1 es ext dd' dataoffs fob fw2 trace hc hw rec hrec
  obtain ⟨hmem, _, _⟩ :=
    write_directory_data_trace fw1 dd' dataoffs fob fw2 trace hw rec hrec
  exact hdd fw es ext dd' hc (rec.1, rec.2.2) hmem

/-- Witness for C10 at concrete inputs. -/
theorem C10_conflicts_disabled_witness :
    write_conflicted_data FileW.empty [] [] [] = FileW.empty ∧
    (∀ kv ∈ c8dirdata, kv.2.cr = 0 ∧ kv.2.ncr = 0) ∧
    (∀ rec ∈ c8trace, rec.2.2.cr = 0 ∧ rec.2.2.ncr = 0) :=
  ⟨C10_conflicts_disabled.1 FileW.empty [] [] [],
   C10_conflicts_disabled.2.2.1 FileW.empty [entryRootA] [] c8dirdata (by decide),
   C10_conflicts_disabled.2.2.2 FileW.empty FileW.empty [entryRootA] [] c8dirdata
     [([], 30)] 100 c8fw2 c8trace (by decide) (by decide)⟩

/-- The 20 raw bytes `00 01 … 13` of a tree object name used as input. -/
def rawTreeSha : List Nat := List.range 20

/-- A cache-tree extension payload (after the `TREE` tag): the 4-byte
length 25, then one record for the root — path `""`, `entry_count = "1"`,
`subtree_count = "0"`, followed by the 20-byte tree object name. -/
def treePayloadValid : List Nat :=
  packU32 25 ++ [0, 49, 32, 48, 10] ++ rawTreeSha

/-- A cache-tree payload with a single invalid root record: path `""`,
`entry_count = "-1"`, `subtree_count = "0"`, and no object name. -/
def treePayloadInvalid : List Nat := packU32 6 ++ [0, 45, 49, 32, 48, 10]

/-- A directory table with one root record counting one active file. -/
def dirdataRoot : List (List Nat × DirEntry) :=
  [([], ⟨1, 0, 0, 0, 0, 0, List.replicate 20 0⟩)]

/-- C1, evaluated at the failing input: the cache-tree reader stores the
*hexlified* object name (40 ASCII characters), `compile_cache_tree_data`
copies it into `objname`, and the `20s` pack silently truncates it — so the
emitted objname field is the first 20 hex characters (the hex of only the
first 10 raw bytes), not the 20 raw bytes the claim (and the v5 format's
20-byte object-name field) calls for. The `"-1"` record leaves `objname`
all-zero in the table, but its `nentries` becomes `-1`, which the `!I` pack
of the directory record rejects. -/
theorem C1_objname_hex_truncated :
    read_tree_extensiondata ⟨treePayloadValid, 0, []⟩ =
      .ok ([([47], ⟨[47], [49], [48], some (hexlify rawTreeSha)⟩)],
        ⟨treePayloadValid, 29, treePayloadValid⟩) ∧
    compile_cache_tree_data dirdataRoot
        [([47], ⟨[47], [49], [48], some (hexlify rawTreeSha)⟩)] =
      .ok [([], ⟨1, 0, 0, 0, 0, 1, hexlify rawTreeSha⟩)] ∧
    pack20s (hexlify rawTreeSha) = (hexlify rawTreeSha).take 20 ∧
    ¬ pack20s (hexlify rawTreeSha) = rawTreeSha ∧
    ¬ pack20s (hexlify rawTreeSha) = List.replicate 20 0 ∧
    packDirectoryData 0 100 0 0 0 1 1 (hexlify rawTreeSha) =
      some (packU16 0 ++ packU32 100 ++ packU32 0 ++ packU32 0 ++ packU32 0 ++
        packU32 1 ++ packU32 1 ++ (hexlify rawTreeSha).take 20) ∧
    read_tree_extensiondata ⟨treePayloadInvalid, 0, []⟩ =
      .ok ([([47], ⟨[47], [45, 49], [48], none⟩)],
        ⟨treePayloadInvalid, 10, treePayloadInvalid⟩) ∧
    compile_cache_tree_data dirdataRoot [([47], ⟨[47], [45, 49], [48], none⟩)] =
      .ok [([], ⟨1, 0, 0, 0, 0, -1, List.replicate 20 0⟩)] ∧
    packDirectoryData 0 100 0 0 0 1 (-1) (List.replicate 20 0) = none := by
  refine ⟨?_, ?_, ?_, ?_, ?_, ?_, ?_, ?_, ?_⟩ <;> decide
